import Mathlib

/-!
Verification of the BEAST PHAT-toothpick fitting pipeline
(`projects/phat_toothpick/fit_memory.py`).

The development shallowly embeds the pieces of `Q_all_memory`, `save_lnp`,
`save_pdf1d` and `summary_table_memory` that the checked properties are about:
the sparse-likelihood cut, the degenerate-histogram percentile branch, the
resume protocol, the likelihood-archive append/fallback logic, the log-space
prior, the requested-parameter validation, the 1D-PDF array invariant and the
random subsampling of the sparse likelihood.  Machine floats that matter only
through comparisons are modelled as rationals; IEEE non-finite values are
modelled explicitly where the code branches on finiteness.
-/

namespace BeastFit

/-- A floating-point value as seen by the sparsification step: either a finite
value (modelled as a rational) or one of the IEEE non-finite values. -/
inductive FVal where
  | fin (q : ℚ)
  | pinf
  | ninf
  | nan
deriving DecidableEq

/-- The finite entries of a list of float values, in order
(`lnp[np.isfinite(lnp)]`). -/
def finiteEntries (l : List FVal) : List ℚ :=
  l.filterMap (fun x => match x with | .fin q => some q | _ => none)

/-- Embeds `max(lnp[np.isfinite(lnp)])`: the built-in `max` of the finite
entries; Python raises `ValueError` on an empty sequence, modelled as `none`. -/
def maxFinite (l : List FVal) : Option ℚ :=
  (finiteEntries l).max?

/-- IEEE semantics of the elementwise comparison `x - m > t` for finite
`m` and `t`: true for `+inf`, false for `-inf` and `NaN`. -/
def sparseTest (x : FVal) (m t : ℚ) : Bool :=
  match x with
  | .fin q => decide (q - m > t)
  | .pinf => true
  | .ninf => false
  | .nan => false

/-- Embeds line 331 of `Q_all_memory`:
`indx, = np.where((lnp - max(lnp[np.isfinite(lnp)])) > threshold)` applied to
the weight-filtered `lnp_total` array.  The raw signed `threshold` is used. -/
def sparseIndx (lnp : List FVal) (threshold : ℚ) : Option (List ℕ) :=
  match maxFinite lnp with
  | none => none
  | some m =>
    some ((List.range lnp.length).filter (fun i => sparseTest (lnp.getD i .nan) m threshold))

/-- Modelled from the spec words (for comparison with `sparseIndx`): retain the
rows with `lnp_total - max(finite lnp_total) > -abs(threshold)`. -/
def specSparseIndx (lnp : List FVal) (threshold : ℚ) : Option (List ℕ) :=
  match maxFinite lnp with
  | none => none
  | some m =>
    some ((List.range lnp.length).filter (fun i => sparseTest (lnp.getD i .nan) m (-|threshold|)))

/-- Embeds lines 288-289 of `Q_all_memory`:
`indxs, = np.where(stats_table['Pmax'] != 0.0); start_pos = max(indxs) + 1`.
The built-in `max` of an empty sequence raises `ValueError`, modelled as
`none`. -/
def resumeStartPos (pmax : List ℚ) : Option ℕ :=
  let indxs := (List.range pmax.length).filter (fun i => pmax.getD i 0 ≠ 0)
  match indxs.max? with
  | none => none
  | some m => some (m + 1)

/-- Embeds `islice(obs.enumobs(), start_pos, None)` at line 321: the star
indices the loop visits, in order, when the catalog has `nobs` stars. -/
def processedIndices (nobs startPos : ℕ) : List ℕ :=
  (List.range nobs).drop startPos

/-- The columns of the summary statistics table and the 1D-PDF arrays read back
from the prior run at lines 274-297 (`Table.read` and `fits.open`). -/
structure PriorArtifacts where
  bestCols : List (List ℚ)
  expCols : List (List ℚ)
  perCols : List (List (List ℚ))
  chi2min : List ℚ
  chi2minIndx : List ℤ
  pmax : List ℚ
  pmaxIndx : List ℤ
  specgridIndx : List ℤ
  pdf1dArrays : List (List (List ℚ))

/-- The in-memory result state right after the resume branch of
`Q_all_memory` (lines 273-298). -/
structure ResumeState where
  bestVals : List (List ℚ)
  expVals : List (List ℚ)
  perVals : List (List (List ℚ))
  chi2Vals : List ℚ
  chi2Indx : List ℤ
  lnpVals : List ℚ
  lnpIndx : List ℤ
  bestSpecgridIndx : List ℤ
  savePdf1dVals : List (List (List ℚ))
  startPos : Option ℕ

/-- Embeds the resume branch (lines 273-298): every statistics array is
assigned from the corresponding loaded table column, the 1D-PDF arrays are
restored from the prior FITS file when that output is enabled, and the start
position is computed from the loaded `Pmax` column. -/
def initResume (art : PriorArtifacts) (pdf1dOut : Bool)
    (init1d : List (List (List ℚ))) : ResumeState :=
  { bestVals := art.bestCols
    expVals := art.expCols
    perVals := art.perCols
    chi2Vals := art.chi2min
    chi2Indx := art.chi2minIndx
    lnpVals := art.pmax
    lnpIndx := art.pmaxIndx
    bestSpecgridIndx := art.specgridIndx
    savePdf1dVals := if pdf1dOut then art.pdf1dArrays else init1d
    startPos := resumeStartPos art.pmax }

/-- Embeds line 207: `g0_indxs, = np.where(g0['weight'] > 0.0)` — the single
index mask excluding zero-weight grid rows, computed once. -/
def g0Indxs (w : List ℚ) : List ℕ :=
  (List.range w.length).filter (fun i => 0 < w.getD i 0)

/-- Embeds `g0['weight'][g0_indxs].sum()` at line 209: the weight sum over the
filtered rows. -/
def filteredWeightSum (w : List ℚ) : ℚ :=
  ((g0Indxs w).map (fun i => w.getD i 0)).sum

/-- Embeds lines 208-210: the per-row log prior
`g0_weights = log(weight[i]) - log(sum(weight[g0_indxs]))`, a function of the
grid only (computed once, before the per-star loop). -/
noncomputable def g0LogPrior (w : List ℚ) (i : ℕ) : ℝ :=
  Real.log (w.getD i 0) - Real.log (filteredWeightSum w)

/-- Embeds line 329 (`lnp += g0_weights`): the total log posterior of filtered
row `i` for a star whose per-row log likelihood is `lnpLike`. -/
noncomputable def lnpTotal (w : List ℚ) (lnpLike : ℕ → ℝ) (i : ℕ) : ℝ :=
  lnpLike i + g0LogPrior w i

/-- numpy assignment of a 1-D value list into a slice of length `slotLen`
(`per_vals[e,k,:] = vals`): succeeds when the lengths agree, broadcasts a
single element, and otherwise raises a broadcast `ValueError`. -/
def assignBroadcast (slotLen : ℕ) (vals : List ℚ) : Except String (List ℚ) :=
  if vals.length = slotLen then .ok vals
  else if vals.length = 1 then .ok (List.replicate slotLen (vals.headD 0))
  else .error "could not broadcast input array"

/-- Embeds lines 381-385 of `Q_all_memory` for one star and one parameter:
if `pdf1d_vals.max() > 0` normalize by the maximum and store the percentile
results, else store the literal list `[0.0, 0.0, 0.0]`.  `percentileFn`
abstracts `beast.proba.percentile` (external to this file's source);
`nPers = len(p)` is the width of the percentile slot. -/
def percentileStep (nPers : ℕ) (pdf1dBins pdf1dVals : List ℚ)
    (percentileFn : List ℚ → List ℚ → List ℚ) : Except String (List ℚ) :=
  match pdf1dVals.max? with
  | none => .error "zero-size array reduction has no identity"
  | some m =>
    if 0 < m then
      assignBroadcast nPers (percentileFn pdf1dBins (pdf1dVals.map (fun v => v / m)))
    else
      assignBroadcast nPers [0, 0, 0]

/-- One star group of the likelihood archive: the four arrays written at
lines 141-144 of `save_lnp`. -/
structure StarGroup where
  input : List ℚ
  idx : List ℤ
  lnp : List ℚ
  chi2 : List ℚ
deriving DecidableEq

/-- A likelihood archive: the star groups present in the HDF5 file, keyed by
the star index `e` (the group is named `star_%d % e`). -/
abbrev Archive := List (ℕ × StarGroup)

/-- Look up the group of star `e` in an archive. -/
def findGroup (ar : Archive) (e : ℕ) : Option StarGroup :=
  (ar.find? (fun g => g.1 == e)).map Prod.snd

/-- Embeds lines 133-144 of `save_lnp` for one pending star: try to create the
group `star_%d % e`; a duplicate raises `NodeError`, which is caught and the
entry skipped (`pass`), so nothing is written; otherwise the four arrays are
written into the new group. -/
def appendStarGroup (ar : Archive) (e : ℕ) (g : StarGroup) : Archive :=
  if ar.any (fun p => p.1 == e) then ar else ar ++ [(e, g)]

/-- The loop of `save_lnp` over all pending stars. -/
def saveLnpGroups (ar : Archive) (vals : List (ℕ × StarGroup)) : Archive :=
  vals.foldl (fun a v => appendStarGroup a v.1 v.2) ar

/-- The characters of the literal `'lnp_partial'`. -/
def lnpPartialPat : List Char := ['l', 'n', 'p', '_', 'p', 'a', 'r', 't', 'i', 'a', 'l']

/-- Embeds `string.replace(lnp_outname, 'lnp', 'lnp_partial')` at lines
130-131: replace every non-overlapping occurrence of `lnp`, left to right. -/
def replaceLnp : List Char → List Char
  | 'l' :: 'n' :: 'p' :: rest => lnpPartialPat ++ replaceLnp rest
  | c :: cs => c :: replaceLnp cs
  | [] => []

/-- Whether `lnp` occurs as a substring. -/
def occursLnp : List Char → Bool
  | 'l' :: 'n' :: 'p' :: _ => true
  | _ :: cs => occursLnp cs
  | [] => false

/-- The archive stored at path `p` in a path-indexed file system (an absent or
fresh file is an empty archive, as `openFile(_, 'a')` creates it). -/
def getArchive (fs : List (List Char × Archive)) (p : List Char) : Archive :=
  ((fs.find? (fun q => q.1 == p)).map Prod.snd).getD []

/-- Store an archive at path `p`. -/
def setArchive (fs : List (List Char × Archive)) (p : List Char) (ar : Archive) :
    List (List Char × Archive) :=
  (p, ar) :: fs.filter (fun q => !(q.1 == p))

/-- Embeds `save_lnp` (lines 127-145): try to open the primary path for
append; on failure open the alternate path `replace(path, 'lnp',
'lnp_partial')` (this second open is not guarded, so its failure propagates);
then append every pending star group to the opened archive.  `corrupt` tells
which paths fail to open; the result carries the path actually written. -/
def save_lnp (corrupt : List Char → Bool) (fs : List (List Char × Archive))
    (lnpOutname : List Char) (vals : List (ℕ × StarGroup)) :
    Except String (List Char × List (List Char × Archive)) :=
  if corrupt lnpOutname = false then
    .ok (lnpOutname,
      setArchive fs lnpOutname (saveLnpGroups (getArchive fs lnpOutname) vals))
  else
    let alt := replaceLnp lnpOutname
    if corrupt alt = false then
      .ok (alt, setArchive fs alt (saveLnpGroups (getArchive fs alt) vals))
    else
      .error "unable to open file"

/-- Embeds `skip_keys = 'osl keep weight fullgrid_idx stage specgrid_indx'.split()`
at line 515 of `summary_table_memory`. -/
def skip_keys : List String :=
  ["osl", "keep", "weight", "fullgrid_idx", "stage", "specgrid_indx"]

/-- Embeds `keys = [k for k in keys if k not in skip_keys]` at line 516. -/
def filterKeys (keys : List String) : List String :=
  keys.filter (fun k => !(skip_keys.contains k))

/-- Embeds lines 518-520: raise `KeyError('Key "{0}" not recognized')` at the
first remaining key that is not a grid column, else keep the filtered keys. -/
def validateKeys (keys gridKeys : List String) : Except String (List String) :=
  match (filterKeys keys).find? (fun k => !(gridKeys.contains k)) with
  | some k => .error ("Key \"" ++ k ++ "\" not recognized")
  | none => .ok (filterKeys keys)

/-- Embeds the control flow of `summary_table_memory` (lines 511-529): the key
validation runs before `IAU_names_and_extra_info` and `Q_all_memory`, so on a
validation error no computation runs and no artifact is produced; `run`
abstracts everything after validation. -/
def summary_table_memory {α : Type} (keys gridKeys : List String)
    (run : List String → α) : Except String α :=
  match validateKeys keys gridKeys with
  | .error e => .error e
  | .ok ks => .ok (run ks)

/-- Embeds lines 266-269: the 1D-PDF accumulation array of one parameter,
`np.zeros((nobs+1, nbins))` whose row `nobs` is set to the bin centers before
the star loop. -/
def initPdf1d (nobs nbins : ℕ) (binVals : List ℚ) : List (List ℚ) :=
  List.replicate nobs (List.replicate nbins 0) ++ [binVals]

/-- Embeds the star-loop writes `save_pdf1d_vals[k][e,:] = pdf1d_vals`
(line 380): a sequence of row assignments applied in order. -/
def applyUpdates (a : List (List ℚ)) (ups : List (ℕ × List ℚ)) : List (List ℚ) :=
  ups.foldl (fun acc u => acc.set u.1 u.2) a

/-- Embeds `np.random.choice(indx, size=lnp_npts)` at line 336: the default
`replace=True` draws `size` independent uniform picks from `a`, modelled by an
arbitrary pick stream reduced modulo the population size; an empty population
raises `ValueError`, modelled as `none`. -/
def randomChoice (a : List ℕ) (size : ℕ) (picks : ℕ → ℕ) : Option (List ℕ) :=
  if a.isEmpty then none
  else some ((List.range size).map (fun i => a.getD (picks i % a.length) 0))

/-- Embeds `g0_indxs[rindx]` at line 340: the persisted grid indices are the
filtered-grid mask evaluated at the subsampled positions. -/
def persistedIdx (g0indxsList : List ℕ) (rindx : List ℕ) : List ℕ :=
  rindx.map (fun i => g0indxsList.getD i 0)

/-- Helper: dropping `s` from `range n` leaves `range' s (n - s)`. -/
theorem drop_range_eq (n s : ℕ) (h : s ≤ n) :
    (List.range n).drop s = List.range' s (n - s) := by
  have h2 : List.range n = List.range' 0 s ++ List.range' s (n - s) := by
    have hsplit := List.range'_append_1 0 s (n - s)
    rw [Nat.zero_add] at hsplit
    rw [List.range_eq_range', hsplit]
    congr 1
    omega
  rw [h2, List.drop_left' (List.length_range' 0 1 s)]

/-- Helper: membership in the tail of a range. -/
theorem mem_drop_range {n s j : ℕ} : j ∈ (List.range n).drop s ↔ s ≤ j ∧ j < n := by
  rcases Nat.le_total s n with h | h
  · rw [drop_range_eq n s h, List.mem_range'_1]
    omega
  · rw [List.drop_eq_nil_of_le (by simpa using h)]
    simp
    omega

/-- C1 counterexample: with a positive configured threshold (here `1`), the
code retains only rows with `lnp - max > 1` (none here), while the spec rule
`lnp - max > -abs(threshold)` retains the peak row. -/
theorem c1_counterexample :
    sparseIndx [FVal.fin 0, FVal.fin (-1)] 1 = some [] ∧
    specSparseIndx [FVal.fin 0, FVal.fin (-1)] 1 = some [0] := by
  constructor <;>
    norm_num [sparseIndx, specSparseIndx, maxFinite, finiteEntries, sparseTest,
      List.range_succ, List.filterMap_cons, List.max?_cons, List.filter_cons]

/-- C1 (amended): the sparse cut compares against the raw signed threshold,
`lnp_total - max(finite lnp_total) > threshold`; whenever the configured
threshold is nonpositive (as in both in-repo defaults, -40 and -10) this
coincides with the spec's `> -abs(threshold)` rule, and then a weight-filtered
row with finite `lnp_total` is retained exactly when the strict inequality
holds, every excluded finite row failing it. -/
theorem c1_sparse_threshold_raw (lnp : List FVal) (t m : ℚ)
    (ht : t ≤ 0) (hm : maxFinite lnp = some m) :
    sparseIndx lnp t = specSparseIndx lnp t ∧
    ∀ s, sparseIndx lnp t = some s →
      ∀ i q, lnp.getD i FVal.nan = FVal.fin q →
        (i ∈ s ↔ i < lnp.length ∧ q - m > -|t|) := by
  have habs : -|t| = t := by rw [abs_of_nonpos ht, neg_neg]
  constructor
  · simp only [sparseIndx, specSparseIndx, hm, habs]
  · intro s hs i q hq
    simp only [sparseIndx, hm, Option.some.injEq] at hs
    subst hs
    rw [List.mem_filter, List.mem_range, hq, habs]
    simp [sparseTest]

/-- Witness for `c1_sparse_threshold_raw` at `lnp = [0, -5]`, `t = -1`. -/
theorem c1_sparse_threshold_raw_witness :
    sparseIndx [FVal.fin 0, FVal.fin (-5)] (-1) =
      specSparseIndx [FVal.fin 0, FVal.fin (-5)] (-1) :=
  (c1_sparse_threshold_raw [FVal.fin 0, FVal.fin (-5)] (-1) 0
    (by norm_num)
    (by norm_num [maxFinite, finiteEntries, List.filterMap_cons, List.max?_cons])).1

/-- C9: on a resumed run whose loaded `Pmax` column is zero everywhere, the
index set `np.where(Pmax != 0)` is empty and the built-in `max` of it raises,
modelled as `none`: the run errors out rather than restarting from star 0. -/
theorem c9_resume_all_zero_fails (pmax : List ℚ) (h : ∀ x ∈ pmax, x = 0) :
    resumeStartPos pmax = none := by
  have hnil : (List.range pmax.length).filter
      (fun i => decide (pmax.getD i 0 ≠ 0)) = [] := by
    rw [List.filter_eq_nil_iff]
    intro i hi
    rw [List.mem_range] at hi
    simp [List.getElem?_eq_getElem hi, h _ (List.getElem_mem hi)]
  simp only [resumeStartPos, hnil, List.max?_nil]

/-- Witness for `c9_resume_all_zero_fails` at `Pmax = [0, 0, 0]`. -/
theorem c9_resume_all_zero_fails_witness :
    resumeStartPos [0, 0, 0] = none :=
  c9_resume_all_zero_fails [0, 0, 0] (by decide)

/-- C3: on a resumed run whose loaded `Pmax` column has a nonzero entry, the
start position is one past the highest star index with nonzero `Pmax`, every
statistics array and the 1D-PDF arrays are taken from the prior-run artifacts,
and the star loop visits exactly the indices from the start position to the
end, in strictly increasing order — no earlier star is revisited. -/
theorem c3_resume_protocol (art : PriorArtifacts) (nobs : ℕ)
    (init1d : List (List (List ℚ)))
    (h : ∃ i, i < art.pmax.length ∧ art.pmax.getD i 0 ≠ 0) :
    ∃ hi, resumeStartPos art.pmax = some (hi + 1)
      ∧ hi < art.pmax.length ∧ art.pmax.getD hi 0 ≠ 0
      ∧ (∀ j, hi < j → j < art.pmax.length → art.pmax.getD j 0 = 0)
      ∧ (initResume art true init1d).startPos = some (hi + 1)
      ∧ (initResume art true init1d).bestVals = art.bestCols
      ∧ (initResume art true init1d).expVals = art.expCols
      ∧ (initResume art true init1d).perVals = art.perCols
      ∧ (initResume art true init1d).chi2Vals = art.chi2min
      ∧ (initResume art true init1d).chi2Indx = art.chi2minIndx
      ∧ (initResume art true init1d).lnpVals = art.pmax
      ∧ (initResume art true init1d).lnpIndx = art.pmaxIndx
      ∧ (initResume art true init1d).bestSpecgridIndx = art.specgridIndx
      ∧ (initResume art true init1d).savePdf1dVals = art.pdf1dArrays
      ∧ (processedIndices nobs (hi + 1)).Pairwise (· < ·)
      ∧ (∀ j, j ∈ processedIndices nobs (hi + 1) ↔ (hi + 1 ≤ j ∧ j < nobs)) := by
  obtain ⟨i, hilen, hine⟩ := h
  set flt := (List.range art.pmax.length).filter
    (fun i => decide (art.pmax.getD i 0 ≠ 0)) with hflt
  have hmem : i ∈ flt := by
    rw [hflt, List.mem_filter, List.mem_range]
    exact ⟨hilen, by simpa using hine⟩
  obtain ⟨m, hmax⟩ := Option.isSome_iff_exists.mp (List.isSome_max?_of_mem hmem)
  have hchar := List.max?_eq_some_iff'.mp hmax
  have hmmem : m < art.pmax.length ∧ art.pmax.getD m 0 ≠ 0 := by
    have := hchar.1
    rw [hflt, List.mem_filter, List.mem_range] at this
    exact ⟨this.1, by simpa using this.2⟩
  refine ⟨m, ?_, hmmem.1, hmmem.2, ?_, ?_, rfl, rfl, rfl, rfl, rfl, rfl, rfl, rfl, rfl, ?_, ?_⟩
  · simp only [resumeStartPos, ← hflt, hmax]
  · intro j hmj hjlen
    by_contra hne
    have hjmem : j ∈ flt := by
      rw [hflt, List.mem_filter, List.mem_range]
      exact ⟨hjlen, by simpa using hne⟩
    exact absurd (hchar.2 j hjmem) (by omega)
  · simp only [initResume, resumeStartPos, ← hflt, hmax]
  · exact ((List.pairwise_lt_range nobs).sublist (List.drop_sublist _ _))
  · intro j
    exact mem_drop_range

/-- Witness for `c3_resume_protocol` with `Pmax = [5, 0]`, three stars. -/
theorem c3_resume_protocol_witness :
    ∃ hi, resumeStartPos [(5 : ℚ), 0] = some (hi + 1)
      ∧ hi < ([(5 : ℚ), 0]).length ∧ ([(5 : ℚ), 0]).getD hi 0 ≠ 0
      ∧ (∀ j, hi < j → j < ([(5 : ℚ), 0]).length → ([(5 : ℚ), 0]).getD j 0 = 0)
      ∧ (initResume ⟨[], [], [], [], [], [5, 0], [], [], []⟩ true []).startPos = some (hi + 1)
      ∧ (initResume ⟨[], [], [], [], [], [5, 0], [], [], []⟩ true []).bestVals = []
      ∧ (initResume ⟨[], [], [], [], [], [5, 0], [], [], []⟩ true []).expVals = []
      ∧ (initResume ⟨[], [], [], [], [], [5, 0], [], [], []⟩ true []).perVals = []
      ∧ (initResume ⟨[], [], [], [], [], [5, 0], [], [], []⟩ true []).chi2Vals = []
      ∧ (initResume ⟨[], [], [], [], [], [5, 0], [], [], []⟩ true []).chi2Indx = []
      ∧ (initResume ⟨[], [], [], [], [], [5, 0], [], [], []⟩ true []).lnpVals = [5, 0]
      ∧ (initResume ⟨[], [], [], [], [], [5, 0], [], [], []⟩ true []).lnpIndx = []
      ∧ (initResume ⟨[], [], [], [], [], [5, 0], [], [], []⟩ true []).bestSpecgridIndx = []
      ∧ (initResume ⟨[], [], [], [], [], [5, 0], [], [], []⟩ true []).savePdf1dVals = []
      ∧ (processedIndices 3 (hi + 1)).Pairwise (· < ·)
      ∧ (∀ j, j ∈ processedIndices 3 (hi + 1) ↔ (hi + 1 ≤ j ∧ j < 3)) :=
  c3_resume_protocol ⟨[], [], [], [], [], [5, 0], [], [], []⟩ 3 []
    ⟨0, by decide, by decide⟩

/-- C4: flushing a star whose group name already exists in the likelihood
archive is not fatal: the duplicate raises `NodeError`, which is caught and
the entry silently skipped with no retry, so the archive — in particular the
four arrays of the existing group — is left exactly as it was. -/
theorem c4_duplicate_append_skipped (ar : Archive) (e : ℕ) (g g0 : StarGroup)
    (h : findGroup ar e = some g0) :
    appendStarGroup ar e g = ar ∧ findGroup (appendStarGroup ar e g) e = some g0 := by
  have hany : ar.any (fun p => p.1 == e) = true := by
    rw [findGroup] at h
    obtain ⟨p, hp, hp2⟩ := Option.map_eq_some'.mp h
    rw [List.any_eq_true]
    have hpe : (p.1 == e) = true := by simpa using List.find?_some hp
    exact ⟨p, List.mem_of_find?_eq_some hp, hpe⟩
  refine ⟨by simp [appendStarGroup, hany], ?_⟩
  rw [appendStarGroup, if_pos hany]
  exact h

/-- Witness for `c4_duplicate_append_skipped`: re-flushing star 0. -/
theorem c4_duplicate_append_skipped_witness :
    appendStarGroup [(0, ⟨[1], [2], [3], [4]⟩)] 0 ⟨[9], [9], [9], [9]⟩ =
      [(0, ⟨[1], [2], [3], [4]⟩)] ∧
    findGroup (appendStarGroup [(0, ⟨[1], [2], [3], [4]⟩)] 0 ⟨[9], [9], [9], [9]⟩) 0 =
      some ⟨[1], [2], [3], [4]⟩ :=
  c4_duplicate_append_skipped [(0, ⟨[1], [2], [3], [4]⟩)] 0 ⟨[9], [9], [9], [9]⟩
    ⟨[1], [2], [3], [4]⟩ rfl

/-- C10: `np.random.choice(indx, size=lnp_npts)` uses its default
`replace=True`, so for a star with a non-empty sparse set the subsample is
defined for every requested size — also when the size exceeds the sparse set
size — every drawn element comes from the sparse set, and the persisted index
list can contain repeated grid indices (for any size of at least two some pick
sequence yields repeats). -/
theorem c10_subsample_with_replacement (a : List ℕ) (ha : a ≠ []) (size : ℕ) :
    (∀ picks, ∃ r, randomChoice a size picks = some r ∧ r.length = size ∧ ∀ x ∈ r, x ∈ a)
    ∧ (2 ≤ size → ∀ g0indxsList : List ℕ, ∃ picks r,
        randomChoice a size picks = some r ∧ ¬ r.Nodup ∧
        ¬ (persistedIdx g0indxsList r).Nodup) := by
  have hlen : 0 < a.length := List.length_pos.mpr ha
  have hemp : a.isEmpty = false := by simp [List.isEmpty_iff, ha]
  constructor
  · intro picks
    refine ⟨(List.range size).map (fun i => a.getD (picks i % a.length) 0),
      by simp [randomChoice, hemp], by simp, ?_⟩
    intro x hx
    obtain ⟨i, hi, rfl⟩ := List.mem_map.mp hx
    have hmod : picks i % a.length < a.length := Nat.mod_lt _ hlen
    rw [List.getD_eq_getElem a 0 hmod]
    exact List.getElem_mem hmod
  · intro h2 g0indxsList
    refine ⟨fun _ => 0, List.replicate size (a.getD 0 0), ?_, ?_, ?_⟩
    · simp [randomChoice, hemp, Nat.zero_mod, List.map_const']
    · rw [List.nodup_replicate]
      omega
    · rw [persistedIdx, List.map_replicate, List.nodup_replicate]
      omega

/-- Witness for `c10_subsample_with_replacement`: a one-element sparse set
subsampled to three points. -/
theorem c10_subsample_with_replacement_witness :
    ∃ r, randomChoice [7] 3 (fun _ => 0) = some r ∧ r.length = 3 ∧ ∀ x ∈ r, x ∈ [7] :=
  (c10_subsample_with_replacement [7] (by decide) 3).1 (fun _ => 0)

/-- C2 counterexample: with a two-element percentile list and a degenerate
(all-zero) histogram, the literal three-zero list written by the degenerate
branch cannot be broadcast into the length-2 percentile slot and numpy
raises, so the claim fails for percentile lists of lengths other than 3. -/
theorem c2_counterexample :
    percentileStep 2 [1, 2] [0, 0] (fun _ q => q) =
      .error "could not broadcast input array" := by
  norm_num [percentileStep, assignBroadcast, List.max?_cons]

/-- C2 (amended): with a three-element percentile list — the default 16/50/84
and the only length any in-repo caller passes — a star/parameter whose
weighted 1D histogram has maximum zero gets percentile outputs exactly
`[0, 0, 0]`, without error: the normalization and percentile computation are
skipped, so the result does not depend on the percentile function at all. -/
theorem c2_degenerate_percentiles (pdf1dBins pdf1dVals : List ℚ)
    (hm : pdf1dVals.max? = some 0)
    (percentileFn : List ℚ → List ℚ → List ℚ) :
    percentileStep 3 pdf1dBins pdf1dVals percentileFn = .ok [0, 0, 0] ∧
    ∀ g, percentileStep 3 pdf1dBins pdf1dVals g =
      percentileStep 3 pdf1dBins pdf1dVals percentileFn := by
  constructor
  · simp [percentileStep, hm, assignBroadcast]
  · intro g
    simp [percentileStep, hm, assignBroadcast]

/-- Witness for `c2_degenerate_percentiles` on an all-zero histogram. -/
theorem c2_degenerate_percentiles_witness :
    percentileStep 3 [1, 2, 3] [0, 0, 0] (fun _ q => q) = .ok [0, 0, 0] :=
  (c2_degenerate_percentiles [1, 2, 3] [0, 0, 0]
    (by norm_num [List.max?_cons]) (fun _ q => q)).1

/-- C7 counterexample: the requested name `stage` is not a column of a grid
whose only column is `M_ini`, yet no key error is raised — names on the
skip list are silently dropped before validation and the run proceeds. -/
theorem c7_counterexample :
    summary_table_memory ["stage"] ["M_ini"] (fun ks => ks) = .ok [] := rfl

/-- C7 (amended): a requested parameter name that is neither on the built-in
skip list nor a column of the model grid makes `summary_table_memory` fail
with a key error naming an unknown requested parameter, before any
computation: the result is this error whatever the downstream computation
would have been, so no per-star work happens and no artifact is produced. -/
theorem c7_unknown_key_fails_fast (keys gridKeys : List String) (key : String)
    (hmem : key ∈ keys) (hskip : key ∉ skip_keys) (hgrid : key ∉ gridKeys) :
    ∃ k, k ∈ keys ∧ k ∉ skip_keys ∧ k ∉ gridKeys ∧
      ∀ (α : Type) (run : List String → α),
        summary_table_memory keys gridKeys run =
          .error ("Key \"" ++ k ++ "\" not recognized") := by
  have hfk : key ∈ filterKeys keys := by
    rw [filterKeys, List.mem_filter]
    exact ⟨hmem, by simpa using hskip⟩
  have hsome : ((filterKeys keys).find? (fun k => !(gridKeys.contains k))).isSome := by
    rw [List.find?_isSome]
    exact ⟨key, hfk, by simpa using hgrid⟩
  obtain ⟨k, hk⟩ := Option.isSome_iff_exists.mp hsome
  have hkmem := List.mem_of_find?_eq_some hk
  have hkp := List.find?_some hk
  rw [filterKeys, List.mem_filter] at hkmem
  refine ⟨k, hkmem.1, by simpa using hkmem.2, by simpa using hkp, ?_⟩
  intro α run
  simp only [summary_table_memory, validateKeys]
  rw [hk]

/-- Witness for `c7_unknown_key_fails_fast`: requesting `Av` against a grid
with only `M_ini`. -/
theorem c7_unknown_key_fails_fast_witness :
    ∃ k, k ∈ ["Av"] ∧ k ∉ skip_keys ∧ k ∉ ["M_ini"] ∧
      ∀ (α : Type) (run : List String → α),
        summary_table_memory ["Av"] ["M_ini"] run =
          .error ("Key \"" ++ k ++ "\" not recognized") :=
  c7_unknown_key_fails_fast ["Av"] ["M_ini"] "Av" (by decide) (by decide) (by decide)

/-- Helper: the replacement never shortens a path. -/
theorem length_le_replaceLnp (s : List Char) : s.length ≤ (replaceLnp s).length := by
  induction s using replaceLnp.induct with
  | case1 rest ih => simp [replaceLnp, lnpPartialPat]; omega
  | case2 c cs h ih => simp [replaceLnp]; omega
  | case3 => simp [replaceLnp]

/-- Helper: a path containing `lnp` gets strictly longer under replacement. -/
theorem length_lt_replaceLnp_of_occurs (s : List Char) (h : occursLnp s = true) :
    s.length < (replaceLnp s).length := by
  induction s using replaceLnp.induct with
  | case1 rest ih =>
    have := length_le_replaceLnp rest
    simp [replaceLnp, lnpPartialPat]
    omega
  | case2 c cs h2 ih =>
    simp only [occursLnp] at h
    simp only [replaceLnp, List.length_cons]
    exact Nat.succ_lt_succ (ih h)
  | case3 => simp [occursLnp] at h

/-- Helper: a path containing `lnp` has a distinct alternate path. -/
theorem replaceLnp_ne_of_occurs (s : List Char) (h : occursLnp s = true) :
    replaceLnp s ≠ s := by
  intro he
  have h1 := length_lt_replaceLnp_of_occurs s h
  rw [he] at h1
  omega

/-- C5 counterexample: for a primary archive path without the substring `lnp`
(here `out.hd5`) the alternate path equals the primary path, so a corrupted
primary archive aborts the flush with an error instead of switching to a
distinct file and appending the pending groups there. -/
theorem c5_counterexample :
    replaceLnp ['o', 'u', 't', '.', 'h', 'd', '5'] = ['o', 'u', 't', '.', 'h', 'd', '5'] ∧
    save_lnp (fun p => p == ['o', 'u', 't', '.', 'h', 'd', '5']) []
      ['o', 'u', 't', '.', 'h', 'd', '5'] [] = .error "unable to open file" := by
  constructor
  · rfl
  · rfl

/-- C5 (amended): when opening the primary likelihood archive fails and the
primary path contains the substring `lnp` (as the intended archive names do),
the alternate path — every `lnp` replaced by `lnp_partial` — is distinct from
the primary path, and if the alternate path opens, the flush does not fail:
all pending star groups are appended to the archive at the alternate path. -/
theorem c5_corrupt_archive_fallback (corrupt : List Char → Bool)
    (fs : List (List Char × Archive)) (path : List Char)
    (vals : List (ℕ × StarGroup))
    (hocc : occursLnp path = true) (hc : corrupt path = true)
    (halt : corrupt (replaceLnp path) = false) :
    replaceLnp path ≠ path ∧
    save_lnp corrupt fs path vals = .ok (replaceLnp path,
      setArchive fs (replaceLnp path)
        (saveLnpGroups (getArchive fs (replaceLnp path)) vals)) := by
  refine ⟨replaceLnp_ne_of_occurs path hocc, ?_⟩
  rw [save_lnp]
  rw [if_neg (by simp [hc]), if_pos halt]

/-- Witness for `c5_corrupt_archive_fallback` on the path `my_lnp.hd5`. -/
theorem c5_corrupt_archive_fallback_witness :
    replaceLnp ['m', 'y', '_', 'l', 'n', 'p', '.', 'h', 'd', '5'] ≠
      ['m', 'y', '_', 'l', 'n', 'p', '.', 'h', 'd', '5'] ∧
    save_lnp (fun p => p == ['m', 'y', '_', 'l', 'n', 'p', '.', 'h', 'd', '5']) []
      ['m', 'y', '_', 'l', 'n', 'p', '.', 'h', 'd', '5'] [] =
      .ok (replaceLnp ['m', 'y', '_', 'l', 'n', 'p', '.', 'h', 'd', '5'],
        setArchive [] (replaceLnp ['m', 'y', '_', 'l', 'n', 'p', '.', 'h', 'd', '5'])
          (saveLnpGroups
            (getArchive [] (replaceLnp ['m', 'y', '_', 'l', 'n', 'p', '.', 'h', 'd', '5'])) [])) :=
  c5_corrupt_archive_fallback (fun p => p == ['m', 'y', '_', 'l', 'n', 'p', '.', 'h', 'd', '5'])
    [] ['m', 'y', '_', 'l', 'n', 'p', '.', 'h', 'd', '5'] [] (by decide) (by decide) (by decide)

/-- C8: the in-memory 1D-PDF array of a parameter starts as an
(nobs+1) x nbins zero array whose final row holds the fixed bin centers; the
star loop only writes rows at star indices e < nobs, so after any sequence of
such writes — hence in every array handed to `save_pdf1d` at any flush, which
writes the in-memory array as is — the shape is still (nobs+1) x nbins and
the final row is still the bin-center values. -/
theorem c8_pdf1d_last_row_fixed (nobs nbins : ℕ) (binVals : List ℚ)
    (hb : binVals.length = nbins) (ups : List (ℕ × List ℚ))
    (hup : ∀ u ∈ ups, u.1 < nobs ∧ u.2.length = nbins) :
    (applyUpdates (initPdf1d nobs nbins binVals) ups).length = nobs + 1
    ∧ (applyUpdates (initPdf1d nobs nbins binVals) ups).getD nobs [] = binVals
    ∧ ∀ row ∈ applyUpdates (initPdf1d nobs nbins binVals) ups, row.length = nbins := by
  suffices haux : ∀ (l : List (ℕ × List ℚ)) (a : List (List ℚ)),
      (∀ u ∈ l, u.1 < nobs ∧ u.2.length = nbins) →
      a.length = nobs + 1 → a.getD nobs [] = binVals →
      (∀ row ∈ a, row.length = nbins) →
      ((applyUpdates a l).length = nobs + 1 ∧ (applyUpdates a l).getD nobs [] = binVals ∧
        ∀ row ∈ applyUpdates a l, row.length = nbins) by
    refine haux ups (initPdf1d nobs nbins binVals) hup ?_ ?_ ?_
    · simp [initPdf1d]
    · rw [initPdf1d, List.getD_append_right _ _ _ _ (by simp)]
      simp
    · intro row hrow
      rw [initPdf1d, List.mem_append] at hrow
      rcases hrow with hrow | hrow
      · rw [List.eq_of_mem_replicate hrow]
        simp
      · rw [List.mem_singleton] at hrow
        rw [hrow]
        exact hb
  intro l
  induction l with
  | nil =>
    intro a _ h1 h2 h3
    exact ⟨h1, h2, h3⟩
  | cons u us ih =>
    intro a hl h1 h2 h3
    have hu := hl u (List.mem_cons_self u us)
    have hset1 : (a.set u.1 u.2).length = nobs + 1 := by simp [h1]
    have hset2 : (a.set u.1 u.2).getD nobs [] = binVals := by
      rw [List.getD_eq_getElem?_getD, List.getElem?_set_ne (by omega),
        ← List.getD_eq_getElem?_getD]
      exact h2
    have hset3 : ∀ row ∈ a.set u.1 u.2, row.length = nbins := by
      intro row hrow
      rcases List.mem_or_eq_of_mem_set hrow with hrow | hrow
      · exact h3 row hrow
      · rw [hrow]
        exact hu.2
    exact ih (a.set u.1 u.2) (fun v hv => hl v (List.mem_cons_of_mem u hv)) hset1 hset2 hset3

/-- Witness for `c8_pdf1d_last_row_fixed`: one star, two bins, one write. -/
theorem c8_pdf1d_last_row_fixed_witness :
    (applyUpdates (initPdf1d 1 2 [3, 4]) [(0, [5, 6])]).length = 1 + 1
    ∧ (applyUpdates (initPdf1d 1 2 [3, 4]) [(0, [5, 6])]).getD 1 [] = [3, 4]
    ∧ ∀ row ∈ applyUpdates (initPdf1d 1 2 [3, 4]) [(0, [5, 6])], row.length = 2 :=
  c8_pdf1d_last_row_fixed 1 2 [3, 4] rfl [(0, [5, 6])] (by decide)

/-- Helper: summing a function over filtered positions equals summing the
if-gated function over all positions. -/
theorem sum_map_filter_eq (l : List ℕ) (p : ℕ → Bool) (f : ℕ → ℚ) :
    ((l.filter p).map f).sum = (l.map (fun i => if p i then f i else 0)).sum := by
  induction l with
  | nil => rfl
  | cons a l ih =>
    by_cases h : p a
    · simp [List.filter_cons, h, ih]
    · simp [List.filter_cons, h, ih]

/-- Helper: reading every position of a list gives back the list. -/
theorem map_getD_range (l : List ℚ) (d : ℚ) :
    (List.range l.length).map (fun i => l.getD i d) = l := by
  induction l with
  | nil => rfl
  | cons a l ih =>
    rw [List.length_cons, List.range_succ_eq_map, List.map_cons, List.map_map]
    have hc : ((fun i => (a :: l).getD i d) ∘ Nat.succ) = fun i => l.getD i d := by
      funext i
      rfl
    rw [hc, ih]
    rfl

/-- Helper: with nonnegative weights, the weight sum over the filtered rows
equals the weight sum over all rows. -/
theorem filteredWeightSum_eq_sum (w : List ℚ) (hw : ∀ x ∈ w, 0 ≤ x) :
    filteredWeightSum w = w.sum := by
  rw [filteredWeightSum, g0Indxs, sum_map_filter_eq]
  have hcong : (List.range w.length).map
      (fun i => if (decide (0 < w.getD i 0) : Bool) then w.getD i 0 else 0) =
      (List.range w.length).map (fun i => w.getD i 0) := by
    apply List.map_congr_left
    intro i hi
    rw [List.mem_range] at hi
    have hmem : w.getD i 0 ∈ w := by
      rw [List.getD_eq_getElem w 0 hi]
      exact List.getElem_mem hi
    by_cases h : 0 < w.getD i 0
    · rw [if_pos (by simpa using h)]
    · have hz : w.getD i 0 = 0 := le_antisymm (not_lt.mp h) (hw _ hmem)
      rw [if_neg (by simpa using h), hz]
  rw [hcong, map_getD_range]

/-- C6: the zero-weight rows are excluded through the single index mask
(membership in the mask is exactly positivity of the row weight, within
bounds); given nonnegative weights the filtered weight sum equals the total
weight sum, and on every masked row the total log posterior equals the
per-row log likelihood plus the log-space prior `log(weight / sum(weight))`
— the prior `g0LogPrior` being a function of the grid alone, fixed before the
per-star loop. -/
theorem c6_log_prior_total (w : List ℚ) (lnpLike : ℕ → ℝ)
    (hw : ∀ x ∈ w, 0 ≤ x) :
    (∀ i, i ∈ g0Indxs w ↔ (i < w.length ∧ 0 < w.getD i 0))
    ∧ filteredWeightSum w = w.sum
    ∧ ∀ i ∈ g0Indxs w,
        lnpTotal w lnpLike i = lnpLike i + Real.log ((w.getD i 0 : ℝ) / (w.sum : ℝ)) := by
  have hsum := filteredWeightSum_eq_sum w hw
  refine ⟨?_, hsum, ?_⟩
  · intro i
    rw [g0Indxs, List.mem_filter, List.mem_range]
    simp
  · intro i hi
    have hipos : 0 < w.getD i 0 := by
      rw [g0Indxs, List.mem_filter] at hi
      simpa using hi.2
    have hibound : i < w.length := by
      rw [g0Indxs, List.mem_filter, List.mem_range] at hi
      exact hi.1
    have hmem : w.getD i 0 ∈ w := by
      rw [List.getD_eq_getElem w 0 hibound]
      exact List.getElem_mem hibound
    have hsumpos : 0 < w.sum := lt_of_lt_of_le hipos (List.single_le_sum hw _ hmem)
    rw [lnpTotal, g0LogPrior, hsum,
      Real.log_div (by exact_mod_cast hipos.ne') (by exact_mod_cast hsumpos.ne')]

/-- Witness for `c6_log_prior_total` on the weights `[1, 2, 0]`. -/
theorem c6_log_prior_total_witness :
    filteredWeightSum [1, 2, 0] = ([1, 2, 0] : List ℚ).sum :=
  (c6_log_prior_total [1, 2, 0] (fun _ => 0) (by decide)).2.1

end BeastFit
